import Mathlib

/-!
Shallow embedding of the control plane of the nginx-docker-ingress-controller
repository (src/common.py, src/controller.py, src/robocert.py), together with
theorems settling the frozen claims about its specification.

Modelling conventions:
* Docker secrets and configs are `Entry` values in two flat lists (`St`).
  Docker labels are modelled by the single label the controller ever reads,
  `expires`, carried as its parsed numeric value (the source stores
  `str(unix_seconds)` and reads it back with `float(...)`); all times are
  unix seconds as `Int` on one clock.
* Python exceptions are `Except.error` carrying the exception text.
* External collaborators (the ACME library `acmeasync`, OpenSSL, hashlib,
  the jinja renderer) are modelled as parameters describing their outcomes,
  following the spec's scoping of them as interfaces.
-/

/-- A docker secret or config entry.  `expires` is the numeric value of the
`expires` label when present (`common.py` reads
`attrs["Spec"]["Labels"]["expires"]`). -/
structure Entry where
  name : String
  data : String
  expires : Option Int
deriving Repr, DecidableEq

/-- The orchestrator state: the docker secret store and the docker config
store. -/
structure St where
  secrets : List Entry
  configs : List Entry
deriving Repr, DecidableEq

/-- Python `str.startswith`, computed on the underlying character lists
(Lean's built-in `String.startsWith` does not reduce in the kernel). -/
def nameStartsWith (nm pre : String) : Bool := pre.data.isPrefixOf nm.data

/-- `DockerAdapter.list_secrets`: the secrets whose name starts with the
given string (`common.py` lines 55-59). -/
def list_secrets (st : St) (pre : String) : List Entry :=
  st.secrets.filter (fun e => nameStartsWith e.name pre)

/-- `DockerAdapter.secret_exists` (truthiness of the returned id,
`common.py` lines 61-65). -/
def secret_exists (st : St) (nm : String) : Bool :=
  st.secrets.any (fun e => e.name == nm)

/-- `DockerAdapter.del_secret` (`common.py` lines 78-83). -/
def del_secret (st : St) (nm : String) : St :=
  { st with secrets := st.secrets.filter (fun e => e.name != nm) }

/-- `DockerAdapter.write_secret`: delete-then-create (`common.py` lines
85-91). -/
def write_secret (st : St) (nm : String) (data : String) (exp : Option Int) : St :=
  let st1 := del_secret st nm
  { st1 with secrets := st1.secrets ++ [⟨nm, data, exp⟩] }

/-- `DockerAdapter.config_write` on a config list: delete-then-create
(`common.py` lines 112-118). -/
def config_write_l (cfgs : List Entry) (nm : String) (data : String) : List Entry :=
  (cfgs.filter (fun e => e.name != nm)) ++ [⟨nm, data, none⟩]

/-- `DockerAdapter.config_write` lifted to the whole state. -/
def config_write (st : St) (nm : String) (data : String) : St :=
  { st with configs := config_write_l st.configs nm data }

/-- `DockerAdapter.config_read` (`common.py` lines 99-103). -/
def config_read (cfgs : List Entry) (nm : String) : Option Entry :=
  cfgs.find? (fun e => e.name == nm)

/-- The whitespace characters stripped by Python `str.strip()` /
`int(...)`. -/
def isPySpace (c : Char) : Bool :=
  c == ' ' || c == '\t' || c == '\n' || c == '\r' ||
    c == Char.ofNat 11 || c == Char.ofNat 12

/-- Strip leading and trailing whitespace as CPython `int(...)` does. -/
def stripChars (l : List Char) : List Char :=
  ((l.dropWhile isPySpace).reverse.dropWhile isPySpace).reverse

/-- Decimal value of a digit list. -/
def digitsToNat (l : List Char) : Nat :=
  l.foldl (fun n c => n * 10 + (c.toNat - 48)) 0

/-- A non-empty all-digit list. -/
def allDigits (l : List Char) : Bool :=
  !l.isEmpty && l.all (fun c => c.isDigit)

/-- CPython `int(s)`: strip whitespace, optional sign, decimal digits;
`none` models the `ValueError` raise.  (CPython's underscore digit
grouping is not modelled; no name in this development contains one.) -/
def pyInt? (s : String) : Option Int :=
  match stripChars s.data with
  | '-' :: ds => if allDigits ds then some (-(digitsToNat ds : Int)) else none
  | '+' :: ds => if allDigits ds then some ((digitsToNat ds : Int)) else none
  | ds => if allDigits ds then some ((digitsToNat ds : Int)) else none

/-- `config.name.split(".")[-1]` (`common.py` line 419): the characters
after the last `'.'`, the whole name when it has no dot — exactly the
last element of Python's `split(".")`. -/
def suffixOf (nm : String) : String :=
  String.mk ((nm.data.reverse.takeWhile (fun c => c != '.')).reverse)

/-- `VersionedBase.__init__` appends `"."` when the prefix does not already
end with it (`common.py` lines 401-406). -/
def normDot (pre : String) : String :=
  if pre.data.getLast? == some '.' then pre else pre ++ "."

/-- Python-dict insert with overwrite on an equal key.  Only the mapping is
relied upon downstream, not insertion order, so the overwritten pair is
re-inserted at the end. -/
def dinsert {α : Type} (m : List (Int × α)) (k : Int) (v : α) : List (Int × α) :=
  (m.filter (fun p => p.1 != k)) ++ [(k, v)]

/-- Python-dict lookup. -/
def dlookup {α : Type} (m : List (Int × α)) (k : Int) : Option α :=
  (m.find? (fun p => p.1 == k)).map (fun p => p.2)

/-- Python `dict.keys()`. -/
def keysD {α : Type} (m : List (Int × α)) : List Int := m.map (fun p => p.1)

/-- The dict-comprehension loop of `VersionedBase.versions` (`common.py`
lines 416-421): each entry's suffix is parsed with `int(...)`; an
unparsable suffix raises `ValueError`. -/
def versionsGo : List Entry → List (Int × Entry) → Except String (List (Int × Entry))
  | [], m => Except.ok m
  | e :: rest, m =>
      match pyInt? (suffixOf e.name) with
      | some v => versionsGo rest (dinsert m v e)
      | none =>
          Except.error
            ("ValueError: invalid literal for int() with base 10: " ++ suffixOf e.name)

/-- `VersionedBase.versions` over a backing entry list and a prefix
(`common.py` lines 416-421, with `self.list` filtering by the normalised
prefix, lines 452-459). -/
def versionsE (entries : List Entry) (pre : String) : Except String (List (Int × Entry)) :=
  versionsGo (entries.filter (fun e => nameStartsWith e.name (normDot pre))) []

/-- `VersionedBase.latest_version` (`common.py` lines 423-430). -/
def latest_versionE (entries : List Entry) (pre : String) :
    Except String (Option (Int × Entry)) :=
  match versionsE entries pre with
  | Except.error e => Except.error e
  | Except.ok m =>
      match (keysD m).max? with
      | none => Except.ok none
      | some v => Except.ok ((dlookup m v).map (fun e => (v, e)))

/-- `VersionedBase.common_versions` (`common.py` lines 439-446): the
mapping `version -> (self_entry, other_entry)` over the versions present
in both.  The Python set intersection has no specified order; the model
iterates in the first mapping's order, which yields the same mapping. -/
def common_versionsL (ks cs : List (Int × Entry)) : List (Int × (Entry × Entry)) :=
  ks.filterMap (fun p => (dlookup cs p.1).map (fun eb => (p.1, (p.2, eb))))

/-- The claim's version set `keys.versions ∩ certs.versions`. -/
def interVersions (ks cs : List (Int × Entry)) : List Int :=
  (keysD ks).filter (fun v => (dlookup cs v).isSome)

/-- `VersionedBase.with_version` (`common.py` lines 448-449). -/
def with_version (pre : String) (v : Int) : String := normDot pre ++ toString v

/-- Modelled from the spec's words for claim C4 only: the `versions()`
semantics the spec asserts, in which an entry whose suffix does not parse
as an integer is ignored rather than raising. -/
def versions_spec (entries : List Entry) (pre : String) : List (Int × Entry) :=
  (entries.filter (fun e => nameStartsWith e.name (normDot pre))).foldl
    (fun m e =>
      match pyInt? (suffixOf e.name) with
      | some v => dinsert m v e
      | none => m)
    []

/-- `ServiceAdapter.keys` prefix `ndi.svc.<id>.key.` (`common.py` lines
216-221). -/
def svcKeyPre (svcId : String) : String := "ndi.svc." ++ svcId ++ ".key."

/-- `ServiceAdapter.certs` prefix `ndi.svc.<id>.crt.` (`common.py` lines
223-228). -/
def svcCrtPre (svcId : String) : String := "ndi.svc." ++ svcId ++ ".crt."

/-- `ServiceAdapter.latest_cert_pair_with_version` (`common.py` lines
230-239): the `(key, cert)` entries and version at the maximum common
version of the two families, or `none` when the families share no
version. -/
def latest_cert_pair_with_versionE (st : St) (svcId : String) :
    Except String (Option (Entry × Entry × Int)) :=
  match versionsE st.secrets (svcKeyPre svcId), versionsE st.secrets (svcCrtPre svcId) with
  | Except.error e, _ => Except.error e
  | Except.ok _, Except.error e => Except.error e
  | Except.ok ks, Except.ok cs =>
      let common := common_versionsL ks cs
      match (keysD common).max? with
      | none => Except.ok none
      | some v => Except.ok ((dlookup common v).map (fun pr => (pr.1, pr.2, v)))

/-- Modelled from the spec's words for claim C1 only: the pair at version
`max(keys.versions ∩ certs.versions)` with that version, or `none` when
the intersection is empty. -/
def specLatestPair (ks cs : List (Int × Entry)) : Option (Entry × Entry × Int) :=
  match (interVersions ks cs).max? with
  | none => none
  | some v => (dlookup ks v).bind (fun k => (dlookup cs v).map (fun c => (k, c, v)))

/-- `ServiceAdapter.latest_cert_version` (`common.py` lines 250-255). -/
def latest_cert_versionE (st : St) (svcId : String) : Except String (Option Int) :=
  match latest_cert_pair_with_versionE st svcId with
  | Except.error e => Except.error e
  | Except.ok o => Except.ok (o.map (fun t => t.2.2))

/-- `ServiceAdapter.cert_renewable` (`common.py` lines 257-270): `false`
without a latest pair; otherwise `expires < now + 7 days` on the cert
entry's label (a missing label raises `KeyError`). -/
def cert_renewableE (st : St) (svcId : String) (now : Int) : Except String Bool :=
  match latest_cert_pair_with_versionE st svcId with
  | Except.error e => Except.error e
  | Except.ok none => Except.ok false
  | Except.ok (some pr) =>
      match pr.2.1.expires with
      | none => Except.error "KeyError: expires"
      | some e => Except.ok (decide (e < now + 7 * 86400))

/-- The config name `ndi.challange.<token>` written for an http-01 token
(`robocert.py` lines 63-66; the misspelling is the wire format). -/
def challName (token : String) : String := "ndi.challange." ++ token

/-- Outcomes of the external ACME library and crypto calls during one
`RoboCert.order_cert` run, per the spec's `ACMEClient`/`Crypto`
interfaces.  `auths` lists, per authorization, the tokens of its http-01
challenges in iteration order. -/
structure AcmeEnv where
  orderOk : Bool
  auths : List (List String)
  challengesOk : Bool
  statusAfterPending : String
  finalizeOk : Bool
  thumbprint : String
  keyPem : String
  certPem : String
  certExpiry : Int
deriving Repr

/-- Observable events of an `order_cert` run, in program order. -/
inductive Ev where
  | cfgWrite (token : String)
  | challBegin (token : String)
  | secWrite (nm : String)
deriving Repr, DecidableEq

/-- The config-store effect of the challenge loop (`robocert.py` lines
59-67): for each http-01 token in order, write `ndi.challange.<token>`
holding `<token>.<thumbprint>`. -/
def challengeCfgs (thumb : String) (tokens : List String) (cfgs : List Entry) : List Entry :=
  tokens.foldl (fun cs t => config_write_l cs (challName t) (t ++ "." ++ thumb)) cfgs

/-- The event trace of the challenge loop (`robocert.py` lines 59-67): each
token's config write immediately followed by that challenge's `begin`. -/
def challengeTrace (tokens : List String) : List Ev :=
  (tokens.map (fun t => [Ev.cfgWrite t, Ev.challBegin t])).flatten

/-- `next_cert_version` (`robocert.py` lines 50-53). -/
def nextVersion : Option Int → Int
  | none => 0
  | some v => v + 1

/-- Result of an `order_cert` run: the return value (or raised exception),
the final orchestrator state, and the event trace. -/
structure RunResult where
  res : Except String Bool
  state : St
  trace : List Ev
deriving Repr

/-- `RoboCert.order_cert` (`robocert.py` lines 46-145).  The order is
created first (no store effect), then the next version is computed from
the store (line 50; may raise `ValueError`), then the order check (line
55).  The challenge loop writes `ndi.challange.<token>` and begins each
challenge in turn.  Secrets are written only after every authorization is
valid, the order is `ready`, and finalization reaches `valid`: then the
key and cert secrets at the next version are removed if present and
rewritten, the cert carrying the `expires` label. -/
def challSt (env : AcmeEnv) (st : St) : St :=
  { st with configs := challengeCfgs env.thumbprint env.auths.flatten st.configs }

/-- The secret writes of lines 121-141 of `robocert.py`: remove any
existing key and cert secret at the next version (defensive reads), then
write the key PEM and the cert PEM, the cert carrying the `expires`
label. -/
def issueSecrets (env : AcmeEnv) (svcId : String) (st1 : St) (nextv : Int) : St :=
  write_secret
    (write_secret
      (del_secret (del_secret st1 (svcKeyPre svcId ++ toString nextv))
        (svcCrtPre svcId ++ toString nextv))
      (svcKeyPre svcId ++ toString nextv) env.keyPem none)
    (svcCrtPre svcId ++ toString nextv) env.certPem (some env.certExpiry)

/-- The run after a non-raising version lookup: the order check, the
challenge loop (config effect `challSt`, events `challengeTrace`), the
`if not challs` check, the awaits, and on full success the secret
writes. -/
def orderCertBody (env : AcmeEnv) (svcId : String) (st : St) (latest : Option Int) :
    RunResult :=
  if env.orderOk then
    if env.auths.flatten = [] then
      ⟨Except.ok false, challSt env st, challengeTrace env.auths.flatten⟩
    else if env.challengesOk then
      if env.statusAfterPending = "ready" then
        if env.finalizeOk then
          ⟨Except.ok true, issueSecrets env svcId (challSt env st) (nextVersion latest),
            challengeTrace env.auths.flatten ++
              [Ev.secWrite (svcKeyPre svcId ++ toString (nextVersion latest)),
               Ev.secWrite (svcCrtPre svcId ++ toString (nextVersion latest))]⟩
        else
          ⟨Except.error "await_status valid failed after finalize",
            challSt env st, challengeTrace env.auths.flatten⟩
      else ⟨Except.ok false, challSt env st, challengeTrace env.auths.flatten⟩
    else
      ⟨Except.error "challenge await_status valid failed",
        challSt env st, challengeTrace env.auths.flatten⟩
  else ⟨Except.ok false, st, []⟩

def order_cert (env : AcmeEnv) (svcId : String) (st : St) : RunResult :=
  match latest_cert_versionE st svcId with
  | Except.error e => ⟨Except.error e, st, []⟩
  | Except.ok latest => orderCertBody env svcId st latest

/-- Checker used for claim C8 as stated: every `cfgWrite` precedes every
`challBegin` in the trace (no config write occurs at or after the first
`begin`). -/
def allCfgWritesPrecedeBegins (tr : List Ev) : Bool :=
  (tr.dropWhile (fun e =>
      match e with
      | Ev.challBegin _ => false
      | _ => true)).all
    (fun e =>
      match e with
      | Ev.cfgWrite _ => false
      | _ => true)

/-- Checker used for claim C8 amended: every `challBegin t` is preceded in
the trace by a `cfgWrite t` for the same token.  `ws` accumulates the
tokens written so far. -/
def begunTokensOk : List Ev → List String → Bool
  | [], _ => true
  | Ev.cfgWrite t :: rest, ws => begunTokensOk rest (t :: ws)
  | Ev.challBegin t :: rest, ws => ws.contains t && begunTokensOk rest ws
  | Ev.secWrite _ :: rest, ws => begunTokensOk rest ws

/-- The Python attributes reachable on a `VersionedSecrets` object
(`common.py` lines 400-459): an access to any other name raises
`AttributeError`. -/
def vsAttrNames : List String :=
  ["docker", "prefix", "list", "get_name", "versions", "latest_version",
   "latest", "common_versions", "with_version"]

/-- The write at the end of `Controller.ensure_dhparams` (`controller.py`
lines 240-255): `ndi.dhparam.<v>` with label `expires = now + 28 days`;
the PEM bytes come from the external `openssl dhparam` call. -/
def writeDhparam (st : St) (v : Int) (now : Int) (pem : String) : St :=
  write_secret st ("ndi.dhparam." ++ toString v) pem (some (now + 28 * 86400))

/-- `Controller.ensure_dhparams` (`controller.py` lines 217-255).  The
debug `print(vs, vs.load_list, vs.versions)` on line 221 evaluates the
attribute `load_list`, which `VersionedSecrets` does not define, so the
call raises `AttributeError` before anything else; the remaining
translation mirrors lines 222-255 (fresh when the latest entry expires
strictly more than 7 days after `now`, otherwise write version
`latest+1`, or `0` with no existing entry).  The returned `Bool` is
`true` when a secret write happened. -/
def ensure_dhparams (st : St) (now : Int) (pem : String) : Except String (St × Bool) :=
  if vsAttrNames.contains "load_list" then
    match latest_versionE st.secrets "ndi.dhparam." with
    | Except.error e => Except.error e
    | Except.ok (some (version, entry)) =>
        match entry.expires with
        | none => Except.error "KeyError: expires"
        | some e =>
            if e > now + 7 * 86400 then Except.ok (st, false)
            else Except.ok (writeDhparam st (version + 1) now pem, true)
    | Except.ok none => Except.ok (writeDhparam st 0 now pem, true)
  else
    Except.error "AttributeError: 'VersionedSecrets' object has no attribute 'load_list'"

/-- Actions of a `Controller.ensure_account` run, in program order. -/
inductive AAction where
  | removeService
  | createService
deriving Repr, DecidableEq

/-- The waiting loop of `Controller.ensure_account` (`controller.py` lines
168-177) over the successive observed task states: it exits only when a
poll observes `complete`; an exhausted observation list models the loop
still running. -/
def accountWaitLoop : List String → Option Unit
  | [] => none
  | s :: rest => if s = "complete" then some () else accountWaitLoop rest

/-- `Controller.ensure_account` (`controller.py` lines 149-177): do
nothing when the `ndi.acct` secret exists; otherwise remove a pre-existing
bootstrap workload, create a new one, and run the waiting loop.  The
result is the action trace of a run that returned, `none` when the loop
never exits. -/
def ensureAccountRun (acctExists prevService : Bool) (polls : List String) :
    Option (List AAction) :=
  if acctExists then some []
  else
    let acts := (if prevService then [AAction.removeService] else []) ++
      [AAction.createService]
    (accountWaitLoop polls).map (fun _ => acts)

/-- `Controller.ensure_nginx_config` (`controller.py` lines 70-77): the
secret name is `ndi.conf.<hash>` where the hash of the rendered bytes is
`SecretContainer.hash` (`common.py` lines 392-394, `hashlib.sha1`
hex digest, modelled as the function parameter `sha1hex`); the secret is
written only when absent.  Returns the name, whether a write happened,
and the resulting state. -/
def ensure_nginx_config (sha1hex : String → String) (rendered : String) (st : St) :
    String × Bool × St :=
  let nm := "ndi.conf." ++ sha1hex rendered
  if secret_exists st nm then (nm, false, st)
  else (nm, true, write_secret st nm rendered none)

/-- The in-memory `lru_cache` state of one `DockerAdapter` instance for its
`config` property.  The cached value is the decoded text of the chosen
config entry (YAML parsing by `config_load_and_convert` is injectively
determined by that text and is not re-modelled here, the claim being
about caching). -/
structure AdapterM where
  cache : Option String
deriving Repr, DecidableEq

/-- `DockerAdapter.config` (`common.py` lines 129-140): on a cache hit the
cached value is returned with no store read; otherwise the latest
`ndi.config.<N>` entry is read (raising when absent), decoded, cached and
returned.  A raise is not cached, matching `lru_cache`. -/
def config_prop (st : St) (a : AdapterM) : Except String (String × AdapterM) :=
  match a.cache with
  | some v => Except.ok (v, a)
  | none =>
      match latest_versionE st.configs "ndi.config" with
      | Except.error e => Except.error e
      | Except.ok none =>
          Except.error "Config missing, try adding a docker config called ndi.config.0"
      | Except.ok (some (_, entry)) =>
          Except.ok (entry.data, { cache := some entry.data })

/-! ## Helper lemmas -/

theorem dlookup_cons {α : Type} (k : Int) (x : α) (t : List (Int × α)) (v : Int) :
    dlookup ((k, x) :: t) v = if k = v then some x else dlookup t v := by
  by_cases h : k = v <;> simp [dlookup, List.find?_cons, h]

theorem secret_exists_write (st : St) (nm d : String) (e : Option Int) :
    secret_exists (write_secret st nm d e) nm = true := by
  simp [secret_exists, write_secret, del_secret]

theorem secret_exists_write_other (st : St) (nm nm2 d : String) (e : Option Int)
    (h : secret_exists st nm = true) (hne : nm ≠ nm2) :
    secret_exists (write_secret st nm2 d e) nm = true := by
  simp only [secret_exists, List.any_eq_true] at h ⊢
  obtain ⟨x, hx, hxn⟩ := h
  refine ⟨x, ?_, hxn⟩
  simp only [write_secret, del_secret, List.mem_append, List.mem_filter]
  left
  refine ⟨hx, ?_⟩
  have hxe : x.name = nm := by simpa using hxn
  simp [hxe, hne]

theorem accountWaitLoop_eq (polls : List String) :
    accountWaitLoop polls = if polls.contains "complete" then some () else none := by
  induction polls with
  | nil => rfl
  | cons s rest ih =>
      by_cases h : s = "complete"
      · subst h; simp [accountWaitLoop, List.contains_cons]
      · simp [accountWaitLoop, List.contains_cons, h, ih, Ne.symm h]

/-! ## Claim theorems -/

/-- C5 (code_bug): every call of `ensure_dhparams` raises `AttributeError`
at the debug statement `print(vs, vs.load_list, vs.versions)`
(`controller.py` line 221) — `VersionedSecrets` defines no attribute
`load_list` — before reading any state or writing any secret, so the
claimed freshness check and rotation never run. -/
theorem ensure_dhparams_always_raises (st : St) (now : Int) (pem : String) :
    ensure_dhparams st now pem =
      Except.error "AttributeError: 'VersionedSecrets' object has no attribute 'load_list'" :=
  rfl

/-- C6 (counterexample): with no `ndi.acct` secret, no pre-existing
bootstrap workload, and task-state polls `failed` then `complete`, the
run returns normally with trace `[createService]`: observing `failed`
neither terminates the wait nor fails it (the loop goes on to accept the
later `complete`), and no removal of the completed workload follows the
create — the claim requires `failed` to be an invalid terminating state
and the workload to be removed afterwards. -/
theorem ensureAccount_ignores_failed_and_keeps_workload :
    ensureAccountRun false false ["failed", "complete"] = some [AAction.createService] ∧
      ([AAction.createService].contains AAction.removeService) = false :=
  ⟨rfl, rfl⟩

/-- C6 (amended): `ensure_account` does nothing when the `ndi.acct` secret
exists; otherwise it removes a pre-existing bootstrap workload, creates a
new one, and polls until some poll observes state `complete` — a `failed`
poll does not terminate the loop — and a returning run performs no action
after the create, so the completed workload is never removed. -/
theorem ensureAccount_characterisation (acct prev : Bool) (polls : List String) :
    ensureAccountRun acct prev polls =
      if acct then some []
      else if polls.contains "complete" then
        some ((if prev then [AAction.removeService] else []) ++ [AAction.createService])
      else none := by
  unfold ensureAccountRun
  cases acct with
  | true => rfl
  | false =>
      simp only [Bool.false_eq_true, if_false, accountWaitLoop_eq]
      by_cases h : polls.contains "complete" <;> simp [h]

/-- C9: the rendered proxy configuration is stored under the
content-addressed secret name `ndi.conf.<sha1(rendered)>` — identical
renderings yield the same name because the name is a function of the
rendered bytes — and a second `ensure_nginx_config` call on the resulting
state (the only secret write `ensure_nginx_service` performs) finds the
secret present, returns the same name, and writes nothing. -/
theorem ensure_nginx_config_content_addressed
    (sha1hex : String → String) (rendered : String) (st : St) :
    (ensure_nginx_config sha1hex rendered st).1 = "ndi.conf." ++ sha1hex rendered ∧
    (ensure_nginx_config sha1hex rendered
        (ensure_nginx_config sha1hex rendered st).2.2).1
      = (ensure_nginx_config sha1hex rendered st).1 ∧
    (ensure_nginx_config sha1hex rendered
        (ensure_nginx_config sha1hex rendered st).2.2).2.1 = false ∧
    (ensure_nginx_config sha1hex rendered
        (ensure_nginx_config sha1hex rendered st).2.2).2.2
      = (ensure_nginx_config sha1hex rendered st).2.2 := by
  by_cases h : secret_exists st ("ndi.conf." ++ sha1hex rendered) = true
  · simp [ensure_nginx_config, h]
  · simp only [Bool.not_eq_true] at h
    simp [ensure_nginx_config, h, secret_exists_write]

/-- C10: once a `DockerAdapter`'s `config` property has produced a value,
the `lru_cache` pins it: a later access returns the same value and cache
state no matter how the orchestrator's config store has changed. -/
theorem config_prop_cached (st st2 : St) (a a2 : AdapterM) (v : String)
    (h : config_prop st a = Except.ok (v, a2)) :
    config_prop st2 a2 = Except.ok (v, a2) := by
  have hcache : a2.cache = some v := by
    unfold config_prop at h
    cases hc : a.cache with
    | some w =>
        rw [hc] at h
        injection h with h1
        injection h1 with hw ha
        rw [← ha, hc, hw]
    | none =>
        rw [hc] at h
        cases hl : latest_versionE st.configs "ndi.config" with
        | error e => rw [hl] at h; exact absurd h (by simp)
        | ok o =>
            rw [hl] at h
            cases o with
            | none => exact absurd h (by simp)
            | some p =>
                injection h with h1
                injection h1 with hw ha
                rw [← ha, ← hw]
  unfold config_prop
  rw [hcache]

/-- Witness for C10 at a concrete store: the first access caches `"cfg"`
from `ndi.config.0`; a second access on an emptied store still returns
`"cfg"`. -/
theorem config_prop_cached_witness :
    config_prop ⟨[], []⟩ ⟨some "cfg"⟩ = Except.ok ("cfg", ⟨some "cfg"⟩) :=
  config_prop_cached ⟨[], [⟨"ndi.config.0", "cfg", none⟩]⟩ ⟨[], []⟩ ⟨none⟩
    ⟨some "cfg"⟩ "cfg" (by rfl)

/-- C3: for a service whose latest key/cert pair exists and whose cert
entry carries `expires = e`, `cert_renewable` returns exactly the strict
comparison `e < now + 7 days`; the second conjunct records that at the
boundary `e = now + 7 days` the strict comparison — and hence
`cert_renewable` — is `false`. -/
theorem cert_renewable_iff_within_week
    (st : St) (svcId : String) (now e : Int) (k c : Entry) (v : Int)
    (hp : latest_cert_pair_with_versionE st svcId = Except.ok (some (k, c, v)))
    (he : c.expires = some e) :
    cert_renewableE st svcId now = Except.ok (decide (e < now + 7 * 86400)) ∧
      decide ((now + 7 * 86400 : Int) < now + 7 * 86400) = false := by
  constructor
  · unfold cert_renewableE
    rw [hp]
    simp [he]
  · simp

/-- Witness for C3: a pair at version 0 whose cert expires at 100 with
`now = 0` — well inside the 7-day window, hence renewable. -/
theorem cert_renewable_iff_within_week_witness :
    cert_renewableE ⟨[⟨"ndi.svc.s.key.0", "k", none⟩, ⟨"ndi.svc.s.crt.0", "c", some 100⟩], []⟩
        "s" 0 = Except.ok (decide ((100 : Int) < 0 + 7 * 86400)) ∧
      decide ((0 + 7 * 86400 : Int) < 0 + 7 * 86400) = false :=
  cert_renewable_iff_within_week _ "s" 0 100
    ⟨"ndi.svc.s.key.0", "k", none⟩ ⟨"ndi.svc.s.crt.0", "c", some 100⟩ 0 (by rfl) rfl

/-- C4 (counterexample): on a backing entry whose suffix is not an
integer, `versions()` raises `ValueError` — it does not return the
mapping with the entry ignored (which would be the empty mapping here),
as the claim states. -/
theorem versions_raises_on_bad_suffix :
    versionsE [⟨"ndi.dhparam.abc", "x", none⟩] "ndi.dhparam." =
      Except.error "ValueError: invalid literal for int() with base 10: abc" ∧
    versions_spec [⟨"ndi.dhparam.abc", "x", none⟩] "ndi.dhparam." = [] ∧
    versionsE [⟨"ndi.dhparam.abc", "x", none⟩] "ndi.dhparam." ≠
      Except.ok (versions_spec [⟨"ndi.dhparam.abc", "x", none⟩] "ndi.dhparam.") := by
  refine ⟨rfl, rfl, ?_⟩
  intro h
  exact Except.noConfusion h

theorem versionsGo_ok (l : List Entry) (m : List (Int × Entry))
    (h : ∀ e ∈ l, (pyInt? (suffixOf e.name)).isSome = true) :
    versionsGo l m = Except.ok (l.foldl (fun m e =>
      match pyInt? (suffixOf e.name) with
      | some v => dinsert m v e
      | none => m) m) := by
  induction l generalizing m with
  | nil => rfl
  | cons e rest ih =>
      have he := h e (by simp)
      cases hp : pyInt? (suffixOf e.name) with
      | none => rw [hp] at he; simp at he
      | some v =>
          simp only [versionsGo, hp, List.foldl_cons]
          exact ih _ (fun x hx => h x (by simp [hx]))

/-- C4 (amended): when every backing entry under the prefix has a suffix
that `int(...)` accepts (including negative ones), `versions()` returns
the suffix-to-entry mapping; an entry whose suffix does not parse makes
the operation raise `ValueError` instead of being ignored (see the
counterexample). -/
theorem versions_eq_mapping_when_all_parse (entries : List Entry) (pre : String)
    (h : ∀ e ∈ entries.filter (fun e => nameStartsWith e.name (normDot pre)),
        (pyInt? (suffixOf e.name)).isSome = true) :
    versionsE entries pre = Except.ok (versions_spec entries pre) :=
  versionsGo_ok _ _ h

/-- Witness for C4 (amended) on two well-formed dhparam entries. -/
theorem versions_eq_mapping_when_all_parse_witness :
    versionsE [⟨"ndi.dhparam.0", "a", none⟩, ⟨"ndi.dhparam.2", "b", none⟩] "ndi.dhparam." =
      Except.ok (versions_spec
        [⟨"ndi.dhparam.0", "a", none⟩, ⟨"ndi.dhparam.2", "b", none⟩] "ndi.dhparam.") :=
  versions_eq_mapping_when_all_parse _ _ (by decide)

theorem common_versionsL_cons (k0 : Int) (x0 : Entry) (rest cs : List (Int × Entry)) :
    common_versionsL ((k0, x0) :: rest) cs =
      (match dlookup cs k0 with
      | none => common_versionsL rest cs
      | some eb => (k0, (x0, eb)) :: common_versionsL rest cs) := by
  simp only [common_versionsL, List.filterMap_cons]
  cases dlookup cs k0 <;> rfl

theorem keysD_common (ks cs : List (Int × Entry)) :
    keysD (common_versionsL ks cs) = interVersions ks cs := by
  induction ks with
  | nil => rfl
  | cons p rest ih =>
      obtain ⟨k0, x0⟩ := p
      cases h : dlookup cs k0 with
      | none =>
          simp only [common_versionsL_cons, h]
          simp only [interVersions, keysD, List.map_cons, List.filter_cons, h,
            Option.isSome_none, Bool.false_eq_true, if_false] at ih ⊢
          exact ih
      | some eb =>
          simp only [common_versionsL_cons, h]
          simp only [interVersions, keysD, List.map_cons, List.filter_cons, h,
            Option.isSome_some, if_true] at ih ⊢
          rw [ih]

theorem dlookup_common_none (ks cs : List (Int × Entry)) (v : Int)
    (h : dlookup cs v = none) :
    dlookup (common_versionsL ks cs) v = none := by
  induction ks with
  | nil => rfl
  | cons p rest ih =>
      obtain ⟨k0, x0⟩ := p
      cases hp : dlookup cs k0 with
      | none => simpa [common_versionsL_cons, hp] using ih
      | some eb =>
          have hv : k0 ≠ v := by
            intro he
            rw [he, h] at hp
            exact Option.noConfusion hp
          simp only [common_versionsL_cons, hp]
          rw [dlookup_cons]
          simp only [hv, if_false]
          exact ih

theorem dlookup_common (ks cs : List (Int × Entry)) (v : Int) :
    dlookup (common_versionsL ks cs) v =
      (dlookup ks v).bind (fun k => (dlookup cs v).map (fun c => (k, c))) := by
  induction ks with
  | nil => rfl
  | cons p rest ih =>
      obtain ⟨k0, x0⟩ := p
      by_cases hv : k0 = v
      · subst hv
        cases hp : dlookup cs k0 with
        | some eb =>
            simp only [common_versionsL_cons, hp]
            rw [dlookup_cons, dlookup_cons]
            simp [hp]
        | none =>
            simp only [common_versionsL_cons, hp]
            rw [dlookup_cons]
            simp only [if_pos rfl]
            rw [dlookup_common_none rest cs k0 hp]
            simp [hp]
      · cases hp : dlookup cs k0 with
        | some eb =>
            simp only [common_versionsL_cons, hp]
            rw [dlookup_cons, dlookup_cons]
            simp only [hv, if_false]
            exact ih
        | none =>
            simp only [common_versionsL_cons, hp]
            rw [dlookup_cons]
            simp only [hv, if_false]
            exact ih

theorem latest_pair_eq_spec (st : St) (svcId : String)
    (ks cs : List (Int × Entry))
    (hk : versionsE st.secrets (svcKeyPre svcId) = Except.ok ks)
    (hc : versionsE st.secrets (svcCrtPre svcId) = Except.ok cs) :
    latest_cert_pair_with_versionE st svcId = Except.ok (specLatestPair ks cs) := by
  unfold latest_cert_pair_with_versionE specLatestPair
  rw [hk, hc]
  simp only [keysD_common]
  cases hm : (interVersions ks cs).max? with
  | none => rfl
  | some v =>
      simp only [dlookup_common]
      cases dlookup ks v <;> cases dlookup cs v <;> rfl

/-- C1: under parse-clean key and cert families, the code's
`latest_cert_pair_with_version` agrees exactly with the spec's
definition: the `(key, cert)` pair at `max(keys.versions ∩
certs.versions)` together with that version, and `none` when the two
families share no version. -/
theorem latest_cert_pair_matches_spec (st : St) (svcId : String)
    (ks cs : List (Int × Entry))
    (hk : versionsE st.secrets (svcKeyPre svcId) = Except.ok ks)
    (hc : versionsE st.secrets (svcCrtPre svcId) = Except.ok cs) :
    latest_cert_pair_with_versionE st svcId = Except.ok (specLatestPair ks cs) :=
  latest_pair_eq_spec st svcId ks cs hk hc

/-- Witness for C1: keys at versions 0 and 1, certs at version 0 only —
the common maximum is 0 and the pair at 0 is returned with it. -/
theorem latest_cert_pair_matches_spec_witness :
    latest_cert_pair_with_versionE
        ⟨[⟨"ndi.svc.s.key.0", "k0", none⟩, ⟨"ndi.svc.s.key.1", "k1", none⟩,
          ⟨"ndi.svc.s.crt.0", "c0", some 5⟩], []⟩ "s" =
      Except.ok (specLatestPair
        [(0, ⟨"ndi.svc.s.key.0", "k0", none⟩), (1, ⟨"ndi.svc.s.key.1", "k1", none⟩)]
        [(0, ⟨"ndi.svc.s.crt.0", "c0", some 5⟩)]) :=
  latest_cert_pair_matches_spec _ "s" _ _ (by rfl) (by rfl)

theorem begunTokensOk_append_trace (tokens : List String) (rest : List Ev)
    (ws : List String)
    (h : begunTokensOk rest (tokens.reverse ++ ws) = true) :
    begunTokensOk (challengeTrace tokens ++ rest) ws = true := by
  induction tokens generalizing ws with
  | nil => simpa using h
  | cons t ts ih =>
      show begunTokensOk
        (Ev.cfgWrite t :: Ev.challBegin t :: (challengeTrace ts ++ rest)) ws = true
      simp only [begunTokensOk, List.contains_cons, beq_self_eq_true, Bool.true_or,
        Bool.true_and]
      apply ih
      simpa [List.append_assoc] using h

/-- C8 (counterexample): an order with two authorizations, each holding
one http-01 token, produces the trace write `t1`, begin `t1`, write `t2`,
begin `t2`, …: the config entry for `t2` is written after the challenge
for `t1` has already been begun, so it is not the case that
`challange.<T>` is written for every token of the order before any
challenge is triggered. -/
theorem order_cert_write_after_begin_example :
    (order_cert ⟨true, [["t1"], ["t2"]], true, "ready", true, "TH", "K", "C", 9⟩
        "sid" ⟨[], []⟩).trace =
      [Ev.cfgWrite "t1", Ev.challBegin "t1", Ev.cfgWrite "t2", Ev.challBegin "t2",
       Ev.secWrite "ndi.svc.sid.key.0", Ev.secWrite "ndi.svc.sid.crt.0"] ∧
    allCfgWritesPrecedeBegins
      (order_cert ⟨true, [["t1"], ["t2"]], true, "ready", true, "TH", "K", "C", 9⟩
        "sid" ⟨[], []⟩).trace = false :=
  ⟨rfl, rfl⟩

/-- C8 (amended): in every `order_cert` run, each http-01 token's
`challange.<T>` config entry is written before that token's challenge is
begun; writes for later tokens may follow earlier begins (see the
counterexample), so the ordering is per challenge, not global to the
order. -/
theorem order_cert_begins_each_after_its_write
    (env : AcmeEnv) (svcId : String) (st : St) :
    begunTokensOk (order_cert env svcId st).trace [] = true := by
  unfold order_cert
  cases latest_cert_versionE st svcId with
  | error e => rfl
  | ok latest =>
      show begunTokensOk (orderCertBody env svcId st latest).trace [] = true
      unfold orderCertBody
      split
      · split
        · simpa using begunTokensOk_append_trace env.auths.flatten [] [] rfl
        · split
          · split
            · split
              · exact begunTokensOk_append_trace _ _ _ rfl
              · simpa using begunTokensOk_append_trace env.auths.flatten [] [] rfl
            · simpa using begunTokensOk_append_trace env.auths.flatten [] [] rfl
          · simpa using begunTokensOk_append_trace env.auths.flatten [] [] rfl
      · rfl

theorem config_read_write_self (cfgs : List Entry) (nm d : String) :
    (config_read (config_write_l cfgs nm d) nm).isSome = true := by
  rw [config_read, List.find?_isSome]
  exact ⟨⟨nm, d, none⟩, by simp [config_write_l], by simp⟩

theorem config_read_write_keeps (cfgs : List Entry) (nm nm2 d : String)
    (h : (config_read cfgs nm).isSome = true) :
    (config_read (config_write_l cfgs nm2 d) nm).isSome = true := by
  by_cases he : nm = nm2
  · subst he; exact config_read_write_self cfgs nm d
  · rw [config_read, List.find?_isSome] at h ⊢
    obtain ⟨x, hx, hxn⟩ := h
    have hxe : x.name = nm := by simpa using hxn
    refine ⟨x, ?_, hxn⟩
    simp only [config_write_l, List.mem_append, List.mem_filter]
    left
    exact ⟨hx, by simp [hxe, he]⟩

theorem challengeCfgs_keeps (thumb : String) (tokens : List String)
    (cfgs : List Entry) (nm : String)
    (h : (config_read cfgs nm).isSome = true) :
    (config_read (challengeCfgs thumb tokens cfgs) nm).isSome = true := by
  induction tokens generalizing cfgs with
  | nil => exact h
  | cons t ts ih => exact ih _ (config_read_write_keeps _ _ _ _ h)

theorem challengeCfgs_mem (thumb : String) (tokens : List String)
    (cfgs : List Entry) (t : String) (ht : t ∈ tokens) :
    (config_read (challengeCfgs thumb tokens cfgs) (challName t)).isSome = true := by
  induction tokens generalizing cfgs with
  | nil => cases ht
  | cons u ts ih =>
      show (config_read (challengeCfgs thumb ts
        (config_write_l cfgs (challName u) (u ++ "." ++ thumb))) (challName t)).isSome = true
      rcases List.mem_cons.mp ht with he | hts
      · subst he
        exact challengeCfgs_keeps _ _ _ _ (config_read_write_self _ _ _)
      · exact ih _ hts

theorem cfgWrite_mem_challengeTrace (t : String) (tokens : List String)
    (h : Ev.cfgWrite t ∈ challengeTrace tokens) : t ∈ tokens := by
  unfold challengeTrace at h
  rw [List.mem_flatten] at h
  obtain ⟨l, hl, hevl⟩ := h
  rw [List.mem_map] at hl
  obtain ⟨u, hu, hlu⟩ := hl
  rw [← hlu] at hevl
  simp only [List.mem_cons, List.not_mem_nil, or_false] at hevl
  rcases hevl with h1 | h2
  · cases h1
    exact hu
  · cases h2

theorem challengeTrace_writes_present (thumb : String) (tokens : List String)
    (cfgs : List Entry) :
    ((challengeTrace tokens).all (fun ev =>
      match ev with
      | Ev.cfgWrite t =>
          (config_read (challengeCfgs thumb tokens cfgs) (challName t)).isSome
      | _ => true)) = true := by
  rw [List.all_eq_true]
  intro ev hev
  cases ev with
  | cfgWrite t =>
      exact challengeCfgs_mem _ _ _ _ (cfgWrite_mem_challengeTrace t tokens hev)
  | challBegin t => rfl
  | secWrite nm => rfl

/-- C7: when `order_cert` fails before issuance — order creation fails, no
http-01 challenge is found, or the order is not `ready` after leaving
`pending` — the secret store is exactly as before the call (no
`svc.<id>.key.<N>` or `svc.<id>.crt.<N>` is written), while every
`challange.<token>` config entry the run wrote (the `cfgWrite` events of
its trace) is still present in the final config store. -/
theorem order_cert_failure_preserves_state
    (env : AcmeEnv) (svcId : String) (st : St)
    (hv : ∃ l, latest_cert_versionE st svcId = Except.ok l)
    (hfail : env.orderOk = false ∨ env.auths.flatten = [] ∨
      env.statusAfterPending ≠ "ready") :
    (order_cert env svcId st).state.secrets = st.secrets ∧
    ((order_cert env svcId st).trace.all (fun ev =>
      match ev with
      | Ev.cfgWrite t =>
          (config_read (order_cert env svcId st).state.configs (challName t)).isSome
      | _ => true)) = true := by
  obtain ⟨l, hl⟩ := hv
  have hb : order_cert env svcId st = orderCertBody env svcId st l := by
    unfold order_cert
    rw [hl]
  rw [hb]
  unfold orderCertBody
  constructor
  · split
    · split
      · rfl
      · split
        · split
          · split
            · exfalso
              rcases hfail with h | h | h <;> simp_all
            · rfl
          · rfl
        · rfl
    · rfl
  · split
    · split
      · exact challengeTrace_writes_present _ _ _
      · split
        · split
          · split
            · exfalso
              rcases hfail with h | h | h <;> simp_all
            · exact challengeTrace_writes_present _ _ _
          · exact challengeTrace_writes_present _ _ _
        · exact challengeTrace_writes_present _ _ _
    · rfl

/-- Witness for C7: a created order with one token whose status after
`pending` is `invalid` — the secret store stays empty while the written
`challange.tok` entry is present. -/
theorem order_cert_failure_preserves_state_witness :
    (order_cert ⟨true, [["tok"]], true, "invalid", true, "TH", "K", "C", 9⟩
        "sid" ⟨[], []⟩).state.secrets = (⟨[], []⟩ : St).secrets ∧
    ((order_cert ⟨true, [["tok"]], true, "invalid", true, "TH", "K", "C", 9⟩
        "sid" ⟨[], []⟩).trace.all (fun ev =>
      match ev with
      | Ev.cfgWrite t =>
          (config_read
            (order_cert ⟨true, [["tok"]], true, "invalid", true, "TH", "K", "C", 9⟩
              "sid" ⟨[], []⟩).state.configs (challName t)).isSome
      | _ => true)) = true :=
  order_cert_failure_preserves_state _ "sid" _ ⟨none, by rfl⟩
    (Or.inr (Or.inr (by decide)))

theorem mem_interVersions (ks cs : List (Int × Entry)) (v : Int)
    (h : v ∈ interVersions ks cs) :
    (dlookup ks v).isSome = true ∧ (dlookup cs v).isSome = true := by
  unfold interVersions at h
  rw [List.mem_filter] at h
  refine ⟨?_, h.2⟩
  have h1 := h.1
  unfold keysD at h1
  rw [List.mem_map] at h1
  obtain ⟨p, hp, hpv⟩ := h1
  have hfs : (List.find? (fun q => q.1 == v) ks).isSome = true :=
    List.find?_isSome.mpr ⟨p, hp, by simp [hpv]⟩
  obtain ⟨q, hq⟩ := Option.isSome_iff_exists.mp hfs
  unfold dlookup
  rw [hq]
  rfl

theorem specLatestPair_version (ks cs : List (Int × Entry)) :
    (specLatestPair ks cs).map (fun t => t.2.2) = (interVersions ks cs).max? := by
  unfold specLatestPair
  cases hm : (interVersions ks cs).max? with
  | none => rfl
  | some v =>
      have hvmem : v ∈ interVersions ks cs :=
        List.max?_mem (fun a b => max_choice a b) hm
      have h2 := mem_interVersions ks cs v hvmem
      obtain ⟨k, hk2⟩ := Option.isSome_iff_exists.mp h2.1
      obtain ⟨c, hc2⟩ := Option.isSome_iff_exists.mp h2.2
      show Option.map (fun t => t.2.2)
        ((dlookup ks v).bind (fun k => (dlookup cs v).map (fun c => (k, c, v)))) = some v
      rw [hk2, hc2]
      rfl

theorem svcKey_ne_svcCrt (svcId tn : String) :
    (svcKeyPre svcId ++ tn) ≠ (svcCrtPre svcId ++ tn) := by
  intro h
  have hd : (svcKeyPre svcId ++ tn).data = (svcCrtPre svcId ++ tn).data := by rw [h]
  simp only [svcKeyPre, svcCrtPre, String.data_append, List.append_assoc] at hd
  have h1 := List.append_cancel_left hd
  have h2 := List.append_cancel_left h1
  have h3 := List.append_cancel_right h2
  exact absurd h3 (by decide)

/-- C2 (counterexample): with key family `{5}` and no cert secrets (a
state reachable when a run died between its key write and its cert
write), a fully successful `order_cert` computes next version
`max(keys ∩ certs) + 1 = 0` and writes `svc.sid.key.0` while `key.5`
still exists: the newly written key entry does not use
`max(existing versions in its family) + 1 = 6`. -/
theorem order_cert_version_not_family_max :
    (order_cert ⟨true, [["tok"]], true, "ready", true, "TH", "KPEM", "CPEM", 9⟩ "sid"
        ⟨[⟨"ndi.svc.sid.key.5", "old", none⟩], []⟩).state.secrets =
      [⟨"ndi.svc.sid.key.5", "old", none⟩, ⟨"ndi.svc.sid.key.0", "KPEM", none⟩,
       ⟨"ndi.svc.sid.crt.0", "CPEM", some 9⟩] ∧
    versionsE [⟨"ndi.svc.sid.key.5", "old", none⟩] (svcKeyPre "sid") =
      Except.ok [(5, ⟨"ndi.svc.sid.key.5", "old", none⟩)] ∧
    ¬ ((0 : Int) = 5 + 1) :=
  ⟨rfl, rfl, by decide⟩

/-- C2 (amended): a fully successful `order_cert` writes its key and cert
secrets at version `max(keys.versions ∩ certs.versions) + 1` (`0` when
the intersection is empty) — which equals `max(existing in the family) + 1`
only when the two families carry the same version set (see the
counterexample); `ensure_dhparams` computes `max(existing) + 1` (`0` when
none) for the dhparam family but currently raises before writing
(see C5). -/
theorem order_cert_writes_at_common_next_version
    (env : AcmeEnv) (svcId : String) (st : St) (ks cs : List (Int × Entry))
    (hk : versionsE st.secrets (svcKeyPre svcId) = Except.ok ks)
    (hc : versionsE st.secrets (svcCrtPre svcId) = Except.ok cs)
    (ho : env.orderOk = true) (ht : ¬ env.auths.flatten = [])
    (hch : env.challengesOk = true) (hs : env.statusAfterPending = "ready")
    (hf : env.finalizeOk = true) :
    (order_cert env svcId st).res = Except.ok true ∧
    secret_exists (order_cert env svcId st).state
        (svcKeyPre svcId ++ toString (nextVersion ((interVersions ks cs).max?))) = true ∧
    secret_exists (order_cert env svcId st).state
        (svcCrtPre svcId ++ toString (nextVersion ((interVersions ks cs).max?))) = true := by
  have hp := latest_pair_eq_spec st svcId ks cs hk hc
  have hv : latest_cert_versionE st svcId =
      Except.ok ((interVersions ks cs).max?) := by
    unfold latest_cert_versionE
    rw [hp]
    show Except.ok ((specLatestPair ks cs).map (fun t => t.2.2)) =
      Except.ok ((interVersions ks cs).max?)
    exact congrArg Except.ok (specLatestPair_version ks cs)
  have hb : order_cert env svcId st =
      orderCertBody env svcId st ((interVersions ks cs).max?) := by
    unfold order_cert
    rw [hv]
  rw [hb]
  unfold orderCertBody
  rw [if_pos ho, if_neg ht, if_pos hch, if_pos hs, if_pos hf]
  refine ⟨rfl, ?_, ?_⟩
  · exact secret_exists_write_other _ _ _ _ _
      (secret_exists_write _ _ _ _)
      (svcKey_ne_svcCrt svcId (toString (nextVersion ((interVersions ks cs).max?))))
  · exact secret_exists_write _ _ _ _

/-- Witness for C2 (amended): empty store, one-token successful order —
`key.0` and `crt.0` are written. -/
theorem order_cert_writes_at_common_next_version_witness :
    (order_cert ⟨true, [["tokw"]], true, "ready", true, "T", "KW", "CW", 7⟩
        "svw" ⟨[], []⟩).res = Except.ok true ∧
    secret_exists (order_cert ⟨true, [["tokw"]], true, "ready", true, "T", "KW", "CW", 7⟩
        "svw" ⟨[], []⟩).state
        (svcKeyPre "svw" ++ toString (nextVersion
          ((interVersions ([] : List (Int × Entry)) ([] : List (Int × Entry))).max?))) = true ∧
    secret_exists (order_cert ⟨true, [["tokw"]], true, "ready", true, "T", "KW", "CW", 7⟩
        "svw" ⟨[], []⟩).state
        (svcCrtPre "svw" ++ toString (nextVersion
          ((interVersions ([] : List (Int × Entry)) ([] : List (Int × Entry))).max?))) = true :=
  order_cert_writes_at_common_next_version _ "svw" _ [] [] rfl rfl rfl
    (by decide) rfl rfl rfl
